import Mathlib

/-
Verification of the AudioManager component (src/components/AudioManager.tsx).
Filenames are modelled as lists of characters; JS Date values constructed by
parseFileName are modelled as minutes since the Unix epoch, following the
ECMAScript MakeDay / MakeTime calendar arithmetic (including month/day
rollover).  All definitions below are transcribed from the source file.
-/

/-! ## Filename date parsing (parseFileName, lines 99-112) -/

/-- The ten captured digit characters of the regex
`(\d\d)(\d\d)(\d\d)_(\d\d)(\d\d)\.mp3`: year, month, day, hour, minute,
two characters each. -/
structure RawMatch where
  y1 : Char
  y2 : Char
  m1 : Char
  m2 : Char
  d1 : Char
  d2 : Char
  h1 : Char
  h2 : Char
  n1 : Char
  n2 : Char
deriving DecidableEq, Repr

/-- Attempt to match the parser's regex at the head of the character list.
The regex is not end-anchored, so trailing characters are permitted. -/
def matchAt : List Char → Option RawMatch
  | a :: b :: c :: d :: e :: f :: '_' :: g :: h :: i :: j :: '.' :: 'm' :: 'p' :: '3' :: _ =>
    if a.isDigit && b.isDigit && c.isDigit && d.isDigit && e.isDigit && f.isDigit &&
       g.isDigit && h.isDigit && i.isDigit && j.isDigit then
      some ⟨a, b, c, d, e, f, g, h, i, j⟩
    else
      none
  | _ => none

/-- Leftmost match of the unanchored regex, as performed by
`filename.match(/(\d{2})(\d{2})(\d{2})_(\d{2})(\d{2})\.mp3/)`:
try each start position from the left. -/
def findFirstMatch : List Char → Option RawMatch
  | [] => none
  | c :: rest =>
    match matchAt (c :: rest) with
    | some m => some m
    | none => findFirstMatch rest

/-- The scanner's anchored filter `^\d{6}_\d{4}\.mp3$` (line 126): the whole
name is exactly six digits, an underscore, four digits, and ".mp3". -/
def anchoredPattern : List Char → Bool
  | [a, b, c, d, e, f, '_', g, h, i, j, '.', 'm', 'p', '3'] =>
    a.isDigit && b.isDigit && c.isDigit && d.isDigit && e.isDigit && f.isDigit &&
    g.isDigit && h.isDigit && i.isDigit && j.isDigit
  | _ => false

/-- Numeric value of a digit character. -/
def digitVal (c : Char) : Int := Int.ofNat (c.toNat - '0'.toNat)

/-- Days from the Unix epoch to civil date y-m-d (m in 1..12), the standard
civil-calendar day-count algorithm, valid for all integer years. -/
def daysFromCivil (y m d : Int) : Int :=
  let yAdj := if m ≤ 2 then y - 1 else y
  let era := Int.fdiv yAdj 400
  let yoe := yAdj - era * 400
  let mp := Int.fmod (m + 9) 12
  let doy := Int.fdiv (153 * mp + 2) 5 + d - 1
  let doe := yoe * 365 + Int.fdiv yoe 4 - Int.fdiv yoe 100 + doy
  era * 146097 + doe - 719468

/-- ECMAScript MakeDay: month index may lie outside 0..11 and the day outside
the month's range; both roll over. -/
def makeDay (y m dt : Int) : Int :=
  daysFromCivil (y + Int.fdiv m 12) (Int.fmod m 12 + 1) 1 + dt - 1

/-- The timestamp (in minutes since the epoch) of
`new Date(year, monthIndex, day, hour, minute)`. -/
def makeDateMinutes (y m dt hh mi : Int) : Int :=
  makeDay y m dt * 1440 + hh * 60 + mi

/-- Result record of parseFileName: year "20YY", month "MM", day "DD",
time "HH:MM", and the constructed Date (as epoch minutes). -/
structure DateInfo where
  year : List Char
  month : List Char
  day : List Char
  time : List Char
  fullDate : Int
deriving DecidableEq, Repr

/-- parseFileName (lines 99-112): find the leftmost match of the unanchored
regex; on a match build the date record, expanding the year to 20YY and
constructing `new Date(20YY, MM-1, DD, HH, MM)`; otherwise return null. -/
def parseFileName (s : List Char) : Option DateInfo :=
  match findFirstMatch s with
  | none => none
  | some m =>
    let yearNum : Int := 2000 + 10 * digitVal m.y1 + digitVal m.y2
    let monthIdx : Int := (10 * digitVal m.m1 + digitVal m.m2) - 1
    let dayNum : Int := 10 * digitVal m.d1 + digitVal m.d2
    let hourNum : Int := 10 * digitVal m.h1 + digitVal m.h2
    let minuteNum : Int := 10 * digitVal m.n1 + digitVal m.n2
    some { year := ['2', '0', m.y1, m.y2]
         , month := [m.m1, m.m2]
         , day := [m.d1, m.d2]
         , time := [m.h1, m.h2, ':', m.n1, m.n2]
         , fullDate := makeDateMinutes yearNum monthIdx dayNum hourNum minuteNum }

/-! ## Directory scanning (handleFolderSelect, lines 115-138) -/

/-- Kind of a directory entry, as reported by the directory handle. -/
inductive EntryKind
  | file
  | directory
deriving DecidableEq, Repr, Inhabited

/-- A direct child of the picked directory. -/
structure DirEntry where
  kind : EntryKind
  name : List Char
deriving DecidableEq, Repr, Inhabited

/-- AudioFile descriptor (the AudioFile interface): the entry's name and
handle together with the parsed date fields. -/
structure AudioFile where
  name : List Char
  handle : DirEntry
  year : List Char
  month : List Char
  day : List Char
  time : List Char
  fullDate : Int
deriving DecidableEq, Repr, Inhabited

/-- Body of the scanner's enumeration loop for one entry (lines 125-131):
keep the entry only if it is a file whose name passes the anchored filter
and parseFileName returns a result. -/
def processEntry (e : DirEntry) : List AudioFile :=
  if e.kind = EntryKind.file ∧ anchoredPattern e.name = true then
    match parseFileName e.name with
    | some info =>
      [{ name := e.name, handle := e, year := info.year, month := info.month,
         day := info.day, time := info.time, fullDate := info.fullDate }]
    | none => []
  else []

/-- Insert a file into a list already sorted by fullDate descending, keeping
earlier equal-key files first: this realises the stable comparator sort
`audioFiles.sort((a, b) => b.fullDate.getTime() - a.fullDate.getTime())`. -/
def insertFileDesc (f : AudioFile) : List AudioFile → List AudioFile
  | [] => [f]
  | g :: rest =>
    if f.fullDate ≤ g.fullDate then g :: insertFileDesc f rest
    else f :: g :: rest

/-- The scanner's final sort (line 133): stable, fullDate descending. -/
def sortByFullDateDesc (l : List AudioFile) : List AudioFile :=
  l.foldl (fun acc f => insertFileDesc f acc) []

/-- The enumeration loop over the directory's children.  Each event either
yields an entry or throws; a throw aborts the loop and discards the local
accumulator. -/
def collectFiles : List (Except Unit DirEntry) → List AudioFile → Except Unit (List AudioFile)
  | [], acc => Except.ok acc
  | Except.error _ :: _, _ => Except.error ()
  | Except.ok e :: rest, acc => collectFiles rest (acc ++ processEntry e)

/-- handleFolderSelect (lines 115-138): the picker either throws (user
cancel) or yields the enumeration events.  On success the sorted list
replaces the file list wholesale; any thrown error is caught and the file
list is left untouched. -/
def handleFolderSelect (files : List AudioFile)
    (picker : Except Unit (List (Except Unit DirEntry))) : List AudioFile :=
  match picker with
  | Except.error _ => files
  | Except.ok evts =>
    match collectFiles evts [] with
    | Except.error _ => files
    | Except.ok audioFiles => sortByFullDateDesc audioFiles

/-! ## Grouping (groupedFiles, lines 214-227) -/

/-- The month bucket key, `${file.year}-${file.month}`. -/
def monthKey (f : AudioFile) : List Char := f.year ++ '-' :: f.month

/-- Inner map of the accumulator: month key to bucket, in insertion order. -/
abbrev MonthMap := List (List Char × List AudioFile)

/-- Outer map of the accumulator: year key to month map, in insertion order. -/
abbrev Grouped := List (List Char × MonthMap)

/-- `acc[yearKey][monthKey].push(file)` with the two create-if-absent steps,
at the inner level. -/
def pushMonth (mk : List Char) (f : AudioFile) : MonthMap → MonthMap
  | [] => [(mk, [f])]
  | (k, b) :: rest =>
    if k = mk then (k, b ++ [f]) :: rest else (k, b) :: pushMonth mk f rest

/-- `acc[yearKey][monthKey].push(file)` with the two create-if-absent steps,
at the outer level. -/
def pushFile (f : AudioFile) : Grouped → Grouped
  | [] => [(f.year, pushMonth (monthKey f) f [])]
  | (k, mm) :: rest =>
    if k = f.year then (k, pushMonth (monthKey f) f mm) :: rest
    else (k, mm) :: pushFile f rest

/-- groupedFiles (lines 214-227): the reduce over the file list building the
nested year / year-month buckets. -/
def groupedFiles (l : List AudioFile) : Grouped :=
  l.foldl (fun acc f => pushFile f acc) []

/-- All files of a month map, in bucket-then-position order. -/
def flattenMonth : MonthMap → List AudioFile
  | [] => []
  | (_, b) :: rest => b ++ flattenMonth rest

/-- All files of a grouped structure, in bucket-then-position order. -/
def flattenGrouped : Grouped → List AudioFile
  | [] => []
  | (_, mm) :: rest => flattenMonth mm ++ flattenGrouped rest

/-- Association-list lookup used to read a bucket back out of the
accumulator. -/
def lookupKey {α : Type} (k : List Char) : List (List Char × α) → Option α
  | [] => none
  | (k₀, v) :: rest => if k₀ = k then some v else lookupKey k rest

/-- The bucket stored under year `y` and month key `mk` (empty if absent). -/
def bucketOf (g : Grouped) (y mk : List Char) : List AudioFile :=
  (lookupKey mk ((lookupKey y g).getD [])).getD []

/-! ## Playback and selection state (handleFileSelect lines 141-166,
handleSeek lines 200-204) -/

/-- The component's playback-related state: the React state variables
(selected, isPlaying, currentTime, duration) together with the mutable
audio element (paused flag, bound src, element position) and the set of
object URLs created by URL.createObjectURL and not yet revoked.  URLs are
numbered in creation order. -/
structure PlayerState where
  selected : Option AudioFile
  isPlaying : Bool
  currentTime : ℚ
  duration : ℚ
  audioPaused : Bool
  audioSrc : Option Nat
  audioTime : ℚ
  liveUrls : List Nat
  nextUrl : Nat
deriving DecidableEq

/-- The component's state at mount: nothing selected, audio element fresh,
no object URL created. -/
def initPlayer : PlayerState :=
  { selected := none, isPlaying := false, currentTime := 0, duration := 0,
    audioPaused := false, audioSrc := none, audioTime := 0,
    liveUrls := [], nextUrl := 0 }

/-- handleFileSelect (lines 141-166).  `getFileResult` is the outcome of
`await fileHandle.getFile()`; on a throw the catch clause only logs and no
state changes.  On success, in source order: pause the audio element,
create an object URL, assign it to the element's src, set the selection,
isPlaying and currentTime, and start transcription.  The function returns a
revocation closure which no caller ever invokes, so no URL is ever removed
from `liveUrls`. -/
def handleFileSelect (st : PlayerState) (file : AudioFile)
    (getFileResult : Except Unit Unit) : PlayerState :=
  match getFileResult with
  | Except.error _ => st
  | Except.ok _ =>
    let st₁ := { st with audioPaused := true }
    let u := st₁.nextUrl
    let st₂ := { st₁ with liveUrls := st₁.liveUrls ++ [u], nextUrl := u + 1 }
    let st₃ := { st₂ with audioSrc := some u }
    { st₃ with selected := some file, isPlaying := false, currentTime := 0 }

/-- The successive operations of handleFileSelect's success path, one
constructor per source statement (lines 144-162). -/
inductive SelectStep
  | getFile
  | pauseAudio
  | createObjectUrl
  | setSrc
  | setSelected
  | setIsPlayingFalse
  | setCurrentTimeZero
  | startTranscription
deriving DecidableEq, Repr

/-- The order in which handleFileSelect's success path performs its
operations, read off the source statement order (lines 144-162). -/
def handleFileSelectOrder : List SelectStep :=
  [SelectStep.getFile, SelectStep.pauseAudio, SelectStep.createObjectUrl,
   SelectStep.setSrc, SelectStep.setSelected, SelectStep.setIsPlayingFalse,
   SelectStep.setCurrentTimeZero, SelectStep.startTranscription]

/-- handleSeek (lines 200-204): `const newTime = value[0]` reads the first
element of the slider's value array without an emptiness check; in this
total embedding the missing-element branch returns none.  On a present
first element it writes the audio element's currentTime and the
currentTime state. -/
def handleSeek (st : PlayerState) (value : List ℚ) : Option PlayerState :=
  match value.head? with
  | none => none
  | some t => some { st with audioTime := t, currentTime := t }

/-! ## Transcription state (initTranscriber lines 46-66, transcribeAudio
lines 169-188) -/

/-- The fixed placeholder shown when transcription is requested before the
pipeline exists (line 171). -/
def notInitializedMsg : String := "Error: Transcription model not initialized"

/-- The fixed placeholder shown when the pipeline call throws (line 184). -/
def transcribeFailedMsg : String := "Error transcribing file"

/-- Transcription-related component state: the pipeline reference
(transciberRef.current, null until initialization succeeds) and the React
state variables. -/
structure TransState where
  transciber : Option Unit
  isTranscribing : Bool
  transcript : String
  transcriptionProgress : Nat
deriving DecidableEq

/-- Outcome of awaiting the pipeline on one file. -/
inductive TransResult
  | ok (text : String)
  | err
deriving DecidableEq

/-- transcribeAudio (lines 169-188): if the pipeline reference is null, set
the placeholder transcript and return (isTranscribing untouched).
Otherwise set isTranscribing, reset progress and transcript, await the
pipeline, record its text or the failure placeholder, and clear
isTranscribing in the finally clause. -/
def transcribeAudio (st : TransState) (res : TransResult) : TransState :=
  match st.transciber with
  | none => { st with transcript := notInitializedMsg }
  | some _ =>
    let st₁ := { st with isTranscribing := true, transcriptionProgress := 0,
                         transcript := "" }
    match res with
    | TransResult.ok t => { st₁ with transcript := t, isTranscribing := false }
    | TransResult.err =>
      { st₁ with transcript := transcribeFailedMsg, isTranscribing := false }

/-- Transcription state at mount: pipeline null, not transcribing, empty
transcript, zero progress. -/
def initialTransState : TransState :=
  { transciber := none, isTranscribing := false, transcript := "",
    transcriptionProgress := 0 }

/-- The events that touch the transcription state: initTranscriber succeeds
(pipeline bound) or throws (caught and logged, nothing bound), a progress
callback fires, or transcribeAudio runs with some outcome. -/
inductive TransStep : TransState → TransState → Prop
  | initOk (st : TransState) : TransStep st { st with transciber := some () }
  | initErr (st : TransState) : TransStep st st
  | progress (st : TransState) (p : Nat) :
      TransStep st { st with transcriptionProgress := p }
  | run (st : TransState) (res : TransResult) : TransStep st (transcribeAudio st res)

/-- States reachable from mount through the transcription events. -/
inductive TransReachable : TransState → Prop
  | base : TransReachable initialTransState
  | step {st st₀ : TransState} :
      TransReachable st → TransStep st st₀ → TransReachable st₀

/-! ## Concrete sample data used by witnesses and counterexamples -/

/-- A directory entry with a well-formed recorder filename. -/
def sampleEntryA : DirEntry := { kind := EntryKind.file, name := "240101_0900.mp3".toList }

/-- A picker outcome delivering just the well-formed entry. -/
def samplePicker : Except Unit (List (Except Unit DirEntry)) :=
  Except.ok [Except.ok sampleEntryA]

/-- The file list produced by scanning the sample directory. -/
def sampleScan : List AudioFile := handleFolderSelect [] samplePicker

/-- A filename the anchored scanner filter rejects but whose suffix the
unanchored parser regex still matches. -/
def strayName : List Char := "x240101_0900.mp3".toList

/-- Two well-formed filenames whose constructed Dates coincide: January 32
rolls over to February 1. -/
def tieEvents : List (Except Unit DirEntry) :=
  [Except.ok { kind := EntryKind.file, name := "240132_0000.mp3".toList },
   Except.ok { kind := EntryKind.file, name := "240201_0000.mp3".toList }]

/-- A throwaway descriptor for claims whose statement does not depend on the
file's contents. -/
def dummyFile : AudioFile :=
  { name := [], handle := { kind := EntryKind.file, name := [] }, year := [],
    month := [], day := [], time := [], fullDate := 0 }

/-- A player state in which audio is currently playing. -/
def playingState : PlayerState := { initPlayer with isPlaying := true }

/-- A well-formed recorder filename used as a parser witness. -/
def sampleName : List Char := "240315_1430.mp3".toList

/-! ## Helper lemmas about the stable descending insertion sort -/

/-- Membership in an insertion step. -/
theorem mem_insertFileDesc {x f : AudioFile} :
    ∀ {l : List AudioFile}, x ∈ insertFileDesc f l → x = f ∨ x ∈ l := by
  intro l
  induction l with
  | nil =>
    intro h
    simpa [insertFileDesc] using h
  | cons g rest ih =>
    intro h
    by_cases hle : f.fullDate ≤ g.fullDate
    · simp only [insertFileDesc, if_pos hle] at h
      rcases List.mem_cons.mp h with h₀ | h₀
      · exact Or.inr (List.mem_cons.mpr (Or.inl h₀))
      · rcases ih h₀ with h₁ | h₁
        · exact Or.inl h₁
        · exact Or.inr (List.mem_cons.mpr (Or.inr h₁))
    · simp only [insertFileDesc, if_neg hle] at h
      rcases List.mem_cons.mp h with h₀ | h₀
      · exact Or.inl h₀
      · exact Or.inr h₀

/-- Inserting permutes to consing. -/
theorem insertFileDesc_perm (f : AudioFile) :
    ∀ l : List AudioFile, List.Perm (insertFileDesc f l) (f :: l) := by
  intro l
  induction l with
  | nil => simp [insertFileDesc]
  | cons g rest ih =>
    by_cases hle : f.fullDate ≤ g.fullDate
    · simp only [insertFileDesc, if_pos hle]
      exact List.Perm.trans (List.Perm.cons g ih) (List.Perm.swap f g rest)
    · simp only [insertFileDesc, if_neg hle]
      exact List.Perm.refl _

/-- Insertion preserves the descending (non-increasing) ordering. -/
theorem pairwise_insertFileDesc (f : AudioFile) :
    ∀ {l : List AudioFile},
      List.Pairwise (fun a b => b.fullDate ≤ a.fullDate) l →
      List.Pairwise (fun a b => b.fullDate ≤ a.fullDate) (insertFileDesc f l) := by
  intro l
  induction l with
  | nil =>
    intro _
    simp [insertFileDesc]
  | cons g rest ih =>
    intro h
    rcases List.pairwise_cons.mp h with ⟨hg, hrest⟩
    by_cases hle : f.fullDate ≤ g.fullDate
    · simp only [insertFileDesc, if_pos hle]
      refine List.pairwise_cons.mpr ⟨?_, ih hrest⟩
      intro x hx
      rcases mem_insertFileDesc hx with rfl | hx₀
      · exact hle
      · exact hg x hx₀
    · simp only [insertFileDesc, if_neg hle]
      refine List.pairwise_cons.mpr ⟨?_, h⟩
      intro x hx
      rcases List.mem_cons.mp hx with rfl | hx₀
      · exact le_of_lt (lt_of_not_le hle)
      · exact le_trans (hg x hx₀) (le_of_lt (lt_of_not_le hle))

/-- The scanner's sort output is in non-increasing fullDate order. -/
theorem sortByFullDateDesc_pairwise (l : List AudioFile) :
    List.Pairwise (fun a b => b.fullDate ≤ a.fullDate) (sortByFullDateDesc l) := by
  suffices h : ∀ (l acc : List AudioFile),
      List.Pairwise (fun a b => b.fullDate ≤ a.fullDate) acc →
      List.Pairwise (fun a b => b.fullDate ≤ a.fullDate)
        (l.foldl (fun acc f => insertFileDesc f acc) acc) by
    exact h l [] (by simp)
  intro l
  induction l with
  | nil =>
    intro acc h
    simpa using h
  | cons f rest ih =>
    intro acc h
    exact ih _ (pairwise_insertFileDesc f h)

/-- The scanner's sort permutes the collected list. -/
theorem sortByFullDateDesc_perm (l : List AudioFile) :
    List.Perm (sortByFullDateDesc l) l := by
  suffices h : ∀ (l acc : List AudioFile),
      List.Perm (l.foldl (fun acc f => insertFileDesc f acc) acc) (acc ++ l) by
    exact h l []
  intro l
  induction l with
  | nil =>
    intro acc
    simp
  | cons f rest ih =>
    intro acc
    refine List.Perm.trans (ih (insertFileDesc f acc)) ?_
    refine List.Perm.trans (List.Perm.append_right rest (insertFileDesc_perm f acc)) ?_
    simpa using
      (List.perm_middle.symm :
        List.Perm (f :: (acc ++ rest)) (acc ++ f :: rest))

/-! ## Helper lemmas about the enumeration loop -/

/-- A throw anywhere in the enumeration aborts the whole collection. -/
theorem collectFiles_error_of_mem :
    ∀ (evts : List (Except Unit DirEntry)) (acc : List AudioFile),
      Except.error () ∈ evts → collectFiles evts acc = Except.error () := by
  intro evts
  induction evts with
  | nil =>
    intro acc h
    simp at h
  | cons ev rest ih =>
    intro acc h
    cases ev with
    | error e => rfl
    | ok en =>
      have h₀ : Except.error () ∈ rest := by
        rcases List.mem_cons.mp h with h₁ | h₁
        · simp at h₁
        · exact h₁
      exact ih _ h₀

/-- Every descriptor the loop body produces has an anchored-matching name. -/
theorem anchored_of_mem_processEntry {f : AudioFile} {e : DirEntry}
    (h : f ∈ processEntry e) : anchoredPattern f.name = true := by
  unfold processEntry at h
  by_cases hc : e.kind = EntryKind.file ∧ anchoredPattern e.name = true
  · rw [if_pos hc] at h
    cases hp : parseFileName e.name with
    | none =>
      rw [hp] at h
      simp at h
    | some info =>
      rw [hp] at h
      simp at h
      subst h
      exact hc.2
  · rw [if_neg hc] at h
    simp at h

/-- Every descriptor a successful enumeration collects beyond the initial
accumulator has an anchored-matching name. -/
theorem anchored_of_collectFiles {f : AudioFile} :
    ∀ (evts : List (Except Unit DirEntry)) (acc l : List AudioFile),
      collectFiles evts acc = Except.ok l → f ∈ l →
      f ∈ acc ∨ anchoredPattern f.name = true := by
  intro evts
  induction evts with
  | nil =>
    intro acc l h hf
    simp [collectFiles] at h
    subst h
    exact Or.inl hf
  | cons ev rest ih =>
    intro acc l h hf
    cases ev with
    | error e => simp [collectFiles] at h
    | ok en =>
      rcases ih _ _ h hf with hmem | hanch
      · rcases List.mem_append.mp hmem with h₀ | h₀
        · exact Or.inl h₀
        · exact Or.inr (anchored_of_mem_processEntry h₀)
      · exact Or.inr hanch

/-! ## Helper lemmas about the unanchored parser regex -/

/-- The leftmost search fails exactly when no start position matches. -/
theorem findFirstMatch_eq_none_iff :
    ∀ s : List Char, findFirstMatch s = none ↔ ∀ i, matchAt (List.drop i s) = none := by
  intro s
  induction s with
  | nil =>
    constructor
    · intro _ i
      rw [List.drop_nil]
      rfl
    · intro _
      rfl
  | cons c rest ih =>
    constructor
    · intro h i
      have h' := h
      simp only [findFirstMatch] at h'
      cases hm : matchAt (c :: rest) with
      | some m =>
        rw [hm] at h'
        simp at h'
      | none =>
        rw [hm] at h'
        cases i with
        | zero => simpa using hm
        | succ i₀ => simpa using (ih.mp h') i₀
    · intro h
      have h₀ : matchAt (c :: rest) = none := by simpa using h 0
      simp only [findFirstMatch, h₀]
      exact ih.mpr (fun i => by simpa using h (i + 1))

/-- A list passing the anchored filter is exactly the fifteen-character
recorder shape with ten digit positions. -/
theorem anchoredPattern_shape {s : List Char} (hs : anchoredPattern s = true) :
    ∃ a b c d e f g h i j : Char,
      s = [a, b, c, d, e, f, '_', g, h, i, j, '.', 'm', 'p', '3'] ∧
      (a.isDigit && b.isDigit && c.isDigit && d.isDigit && e.isDigit && f.isDigit &&
       g.isDigit && h.isDigit && i.isDigit && j.isDigit) = true := by
  unfold anchoredPattern at hs
  split at hs
  · rename_i a b c d e f g h i j
    exact ⟨a, b, c, d, e, f, g, h, i, j, rfl, hs⟩
  · simp at hs

/-! ## Helper lemmas about grouping -/

/-- Pushing a file into a month map appends it, up to permutation of the
flattened contents. -/
theorem flattenMonth_pushMonth (mk : List Char) (f : AudioFile) :
    ∀ mm : MonthMap,
      List.Perm (flattenMonth (pushMonth mk f mm)) (flattenMonth mm ++ [f]) := by
  intro mm
  induction mm with
  | nil => simp [pushMonth, flattenMonth]
  | cons p rest ih =>
    obtain ⟨k, b⟩ := p
    by_cases hk : k = mk
    · simp only [pushMonth, if_pos hk, flattenMonth]
      have h₁ : List.Perm ([f] ++ flattenMonth rest) (flattenMonth rest ++ [f]) :=
        List.perm_append_comm
      have h₂ := List.Perm.append_left b h₁
      simpa [List.append_assoc] using h₂
    · simp only [pushMonth, if_neg hk, flattenMonth]
      have h₂ := List.Perm.append_left b ih
      simpa [List.append_assoc] using h₂

/-- Pushing a file into the grouped accumulator appends it, up to
permutation of the flattened contents. -/
theorem flattenGrouped_pushFile (f : AudioFile) :
    ∀ g : Grouped,
      List.Perm (flattenGrouped (pushFile f g)) (flattenGrouped g ++ [f]) := by
  intro g
  induction g with
  | nil => simp [pushFile, flattenGrouped, flattenMonth, pushMonth]
  | cons p rest ih =>
    obtain ⟨k, mm⟩ := p
    by_cases hk : k = f.year
    · simp only [pushFile, if_pos hk, flattenGrouped]
      refine List.Perm.trans
        (List.Perm.append_right (flattenGrouped rest)
          (flattenMonth_pushMonth (monthKey f) f mm)) ?_
      have h₁ :
          List.Perm ([f] ++ flattenGrouped rest) (flattenGrouped rest ++ [f]) :=
        List.perm_append_comm
      have h₂ := List.Perm.append_left (flattenMonth mm) h₁
      simpa [List.append_assoc] using h₂
    · simp only [pushFile, if_neg hk, flattenGrouped]
      have h₂ := List.Perm.append_left (flattenMonth mm) ih
      simpa [List.append_assoc] using h₂

/-- The grouped structure holds exactly the grouped list's files. -/
theorem flattenGrouped_groupedFiles (l : List AudioFile) :
    List.Perm (flattenGrouped (groupedFiles l)) l := by
  suffices h : ∀ (l : List AudioFile) (acc : Grouped),
      List.Perm (flattenGrouped (l.foldl (fun a f => pushFile f a) acc))
        (flattenGrouped acc ++ l) by
    exact h l []
  intro l
  induction l with
  | nil =>
    intro acc
    simp
  | cons f rest ih =>
    intro acc
    refine List.Perm.trans (ih (pushFile f acc)) ?_
    refine List.Perm.trans
      (List.Perm.append_right rest (flattenGrouped_pushFile f acc)) ?_
    simp [List.append_assoc]

/-- Reading back the bucket a push wrote to. -/
theorem lookupKey_pushMonth_self (mk : List Char) (f : AudioFile) :
    ∀ mm : MonthMap,
      lookupKey mk (pushMonth mk f mm) = some ((lookupKey mk mm).getD [] ++ [f]) := by
  intro mm
  induction mm with
  | nil => simp [pushMonth, lookupKey]
  | cons p rest ih =>
    obtain ⟨k, b⟩ := p
    by_cases hk : k = mk
    · subst hk
      simp [pushMonth, lookupKey]
    · simp [pushMonth, lookupKey, hk, ih]

/-- A push leaves the other month buckets alone. -/
theorem lookupKey_pushMonth_other {mk k : List Char} (hk : k ≠ mk) (f : AudioFile) :
    ∀ mm : MonthMap, lookupKey k (pushMonth mk f mm) = lookupKey k mm := by
  intro mm
  induction mm with
  | nil => simp [pushMonth, lookupKey, Ne.symm hk]
  | cons p rest ih =>
    obtain ⟨k₀, b⟩ := p
    by_cases h₀ : k₀ = mk
    · subst h₀
      simp [pushMonth, lookupKey, Ne.symm hk]
    · by_cases h₁ : k₀ = k
      · subst h₁
        simp [pushMonth, lookupKey, h₀]
      · simp [pushMonth, lookupKey, h₀, h₁, ih]

/-- How one push changes an arbitrary bucket: the file lands at the end of
its own (year, year-month) bucket and nowhere else. -/
theorem bucketOf_pushFile (f : AudioFile) (y mk : List Char) :
    ∀ g : Grouped,
      bucketOf (pushFile f g) y mk =
        bucketOf g y mk ++ (if y = f.year ∧ mk = monthKey f then [f] else []) := by
  intro g
  induction g with
  | nil =>
    by_cases hy : y = f.year
    · subst hy
      by_cases hm : mk = monthKey f
      · subst hm
        simp [pushFile, bucketOf, lookupKey, pushMonth]
      · simp [pushFile, bucketOf, lookupKey, pushMonth, hm, Ne.symm hm]
    · simp [pushFile, bucketOf, lookupKey, hy, Ne.symm hy]
  | cons p rest ih =>
    obtain ⟨k, mm⟩ := p
    by_cases hy : y = k
    · subst hy
      by_cases hk : y = f.year
      · subst hk
        by_cases hm : mk = monthKey f
        · subst hm
          simp [pushFile, bucketOf, lookupKey, lookupKey_pushMonth_self]
        · simp [pushFile, bucketOf, lookupKey, hm, lookupKey_pushMonth_other hm f]
      · simp [pushFile, bucketOf, lookupKey, hk]
    · by_cases hk : k = f.year
      · subst hk
        simp [pushFile, bucketOf, lookupKey, hy, Ne.symm hy]
      · have hlhs : lookupKey y (pushFile f ((k, mm) :: rest)) =
            lookupKey y (pushFile f rest) := by
          simp [pushFile, hk, lookupKey, Ne.symm hy]
        have hrhs : lookupKey y ((k, mm) :: rest) = lookupKey y rest := by
          simp [lookupKey, Ne.symm hy]
        unfold bucketOf
        rw [hlhs, hrhs]
        exact ih

/-- Each bucket of the grouped structure is the filter of the file list by
its (year, year-month) key pair, in list order. -/
theorem bucketOf_groupedFiles (l : List AudioFile) (y mk : List Char) :
    bucketOf (groupedFiles l) y mk =
      l.filter (fun f => decide (y = f.year ∧ mk = monthKey f)) := by
  suffices h : ∀ (l : List AudioFile) (acc : Grouped),
      bucketOf (l.foldl (fun a f => pushFile f a) acc) y mk =
        bucketOf acc y mk ++
          l.filter (fun f => decide (y = f.year ∧ mk = monthKey f)) by
    exact h l []
  intro l
  induction l with
  | nil =>
    intro acc
    simp
  | cons f rest ih =>
    intro acc
    rw [List.foldl_cons, ih (pushFile f acc), bucketOf_pushFile]
    by_cases hc : y = f.year ∧ mk = monthKey f
    · simp [hc, List.filter_cons, List.append_assoc]
    · simp [hc, List.filter_cons, List.append_assoc]

/-! ## Helper invariant for the transcription state machine -/

/-- Inductive invariant: while the pipeline reference is still null,
isTranscribing is false (it is set only after the null guard passes and
cleared before transcribeAudio finishes, and no step nulls the pipeline
back out). -/
theorem transciber_none_not_transcribing :
    ∀ {st : TransState}, TransReachable st → st.transciber = none →
      st.isTranscribing = false := by
  intro st h
  induction h with
  | base =>
    intro _
    rfl
  | @step stPrev stNext hr hs ih =>
    cases hs with
    | initOk =>
      intro h₀
      simp at h₀
    | initErr => exact ih
    | progress p =>
      intro h₀
      exact ih h₀
    | run res =>
      intro h₀
      cases hc : stPrev.transciber with
      | none =>
        have hprev := ih hc
        simp [transcribeAudio, hc]
        exact hprev
      | some u =>
        cases res with
        | ok t => simp [transcribeAudio, hc]
        | err => simp [transcribeAudio, hc]

/-! ## Claim theorems -/

/-- C1 (counterexample): the filename "x240101_0900.mp3" does not match the
anchored pattern, yet parseFileName still yields a result, because the
parser's regex is unanchored and matches the suffix starting at position
one.  This refutes the claim's assertion that the parser returns null for
every filename failing the anchored pattern. -/
theorem parser_unanchored_counterexample :
    anchoredPattern strayName = false ∧ parseFileName strayName ≠ none := by
  decide

/-- C1 (amended): every file the Directory Scanner ever puts in the file
list has a name matching the anchored pattern, so non-matching filenames
are excluded from the file list entirely; the parser on its own, however,
yields no result exactly for filenames containing no occurrence of the
unanchored pattern \d6_\d4.mp3 at any position. -/
theorem scanner_excludes_nonmatching :
    (∀ (files : List AudioFile) (picker : Except Unit (List (Except Unit DirEntry))),
      (∀ f ∈ files, anchoredPattern f.name = true) →
      ∀ f ∈ handleFolderSelect files picker, anchoredPattern f.name = true) ∧
    (∀ s : List Char,
      parseFileName s = none ↔ ∀ i, matchAt (List.drop i s) = none) := by
  constructor
  · intro files picker hfiles f hf
    cases picker with
    | error e => exact hfiles f hf
    | ok evts =>
      cases hc : collectFiles evts [] with
      | error e =>
        have hf' : f ∈ files := by simpa [handleFolderSelect, hc] using hf
        exact hfiles f hf'
      | ok l =>
        have hf' : f ∈ sortByFullDateDesc l := by
          simpa [handleFolderSelect, hc] using hf
        have hl : f ∈ l := (sortByFullDateDesc_perm l).mem_iff.mp hf'
        rcases anchored_of_collectFiles evts [] l hc hl with h₀ | h₀
        · simp at h₀
        · exact h₀
  · intro s
    constructor
    · intro h
      apply (findFirstMatch_eq_none_iff s).mp
      cases hm : findFirstMatch s with
      | none => rfl
      | some m =>
        unfold parseFileName at h
        rw [hm] at h
        simp at h
    · intro h
      unfold parseFileName
      rw [(findFirstMatch_eq_none_iff s).mpr h]

/-- C1 (witness for the amended theorem): the sample scan's first file has
an anchored-matching name. -/
theorem scanner_excludes_witness :
    anchoredPattern (List.headI sampleScan).name = true :=
  scanner_excludes_nonmatching.1 [] samplePicker (by simp)
    (List.headI sampleScan) (by decide)

/-- C2 (counterexample): the two well-formed filenames 240132_0000.mp3 and
240201_0000.mp3 construct the same Date (January 32 rolls over to
February 1), so after scanning them the file list is NOT strictly
descending in fullDate: strictness fails on the tie. -/
theorem scan_not_strictly_sorted :
    ¬ List.Pairwise (fun a b => b.fullDate < a.fullDate)
      (handleFolderSelect [] (Except.ok tieEvents)) := by
  decide

/-- C2 (amended): after every successful folder scan the resulting file
list is sorted by fullDate in descending (non-increasing) order, for any
input ordering of entries; ties, possible through Date rollover, are
allowed. -/
theorem scan_sorted_desc (files : List AudioFile)
    (evts : List (Except Unit DirEntry)) (l : List AudioFile)
    (h : collectFiles evts [] = Except.ok l) :
    List.Pairwise (fun a b => b.fullDate ≤ a.fullDate)
      (handleFolderSelect files (Except.ok evts)) := by
  have hsel : handleFolderSelect files (Except.ok evts) = sortByFullDateDesc l := by
    simp [handleFolderSelect, h]
  rw [hsel]
  exact sortByFullDateDesc_pairwise l

/-- C2 (witness): the sorting guarantee at a concrete one-entry scan. -/
theorem scan_sorted_desc_witness :
    List.Pairwise (fun a b => b.fullDate ≤ a.fullDate)
      (handleFolderSelect [] (Except.ok [Except.ok sampleEntryA])) :=
  scan_sorted_desc [] [Except.ok sampleEntryA] (processEntry sampleEntryA) rfl

/-- C3: grouping is a lossless partition: the files of all (year,
year-month) buckets together are exactly the file list (no duplicates, no
omissions, stated as a permutation), and each bucket is a sublist of the
file list, so within a bucket files keep their relative order. -/
theorem grouping_lossless_partition (l : List AudioFile) :
    List.Perm (flattenGrouped (groupedFiles l)) l ∧
    ∀ y mk : List Char, List.Sublist (bucketOf (groupedFiles l) y mk) l := by
  refine ⟨flattenGrouped_groupedFiles l, ?_⟩
  intro y mk
  rw [bucketOf_groupedFiles]
  exact List.filter_sublist l

/-- C4: if the folder scan fails at any point — the picker throws (user
cancel), or the enumeration throws partway through — the error is caught
and the existing file list is returned completely unchanged. -/
theorem scan_failure_keeps_files (files : List AudioFile) :
    (∀ e : Unit, handleFolderSelect files (Except.error e) = files) ∧
    (∀ evts : List (Except Unit DirEntry), Except.error () ∈ evts →
      handleFolderSelect files (Except.ok evts) = files) := by
  constructor
  · intro e
    rfl
  · intro evts h
    simp [handleFolderSelect, collectFiles_error_of_mem evts [] h]

/-- C4 (witness): a concrete failing enumeration leaves a concrete file
list untouched. -/
theorem scan_failure_keeps_files_witness :
    handleFolderSelect [dummyFile] (Except.ok [Except.error ()]) = [dummyFile] :=
  (scan_failure_keeps_files [dummyFile]).2 [Except.error ()] (by simp)

/-- C5 (code behaviour at the failing input): after two successful file
selections, both created object URLs are still live — handleFileSelect
never invokes URL.revokeObjectURL (the revocation closure it returns is
never called), so temporary references accumulate instead of exactly one
being live. -/
theorem object_urls_accumulate :
    (handleFileSelect (handleFileSelect initPlayer dummyFile (Except.ok ()))
        dummyFile (Except.ok ())).liveUrls = [0, 1] := rfl

/-- C6: a successful file selection resets the playback state: isPlaying
becomes false, currentTime becomes 0, and the selection is replaced by the
new file. -/
theorem select_resets_playback (st : PlayerState) (file : AudioFile) :
    (handleFileSelect st file (Except.ok ())).isPlaying = false ∧
    (handleFileSelect st file (Except.ok ())).currentTime = 0 ∧
    (handleFileSelect st file (Except.ok ())).selected = some file :=
  ⟨rfl, rfl, rfl⟩

/-- C7: when a new file is selected while another is playing, the pause of
the audio element occurs strictly before the new source is bound to it (in
handleFileSelect's operation order), and the element is indeed paused in
the resulting state. -/
theorem pause_before_bind (st : PlayerState) (file : AudioFile)
    (h : st.isPlaying = true) :
    List.indexOf SelectStep.pauseAudio handleFileSelectOrder <
      List.indexOf SelectStep.setSrc handleFileSelectOrder ∧
    (handleFileSelect st file (Except.ok ())).audioPaused = true :=
  ⟨by decide, rfl⟩

/-- C7 (witness): the ordering at a concrete playing state. -/
theorem pause_before_bind_witness :
    playingState.isPlaying = true ∧
    (List.indexOf SelectStep.pauseAudio handleFileSelectOrder <
        List.indexOf SelectStep.setSrc handleFileSelectOrder ∧
      (handleFileSelect playingState dummyFile (Except.ok ())).audioPaused = true) :=
  ⟨rfl, pause_before_bind playingState dummyFile rfl⟩

/-- C8: in every reachable component state whose transcription pipeline is
still null, invoking transcribeAudio sets the transcript to the fixed
"not initialized" placeholder and leaves isTranscribing false (it was
false, and the guard returns without touching it). -/
theorem transcribe_uninitialized (st : TransState) (res : TransResult)
    (hr : TransReachable st) (h : st.transciber = none) :
    (transcribeAudio st res).transcript = notInitializedMsg ∧
    (transcribeAudio st res).isTranscribing = false := by
  constructor
  · simp [transcribeAudio, h]
  · simpa [transcribeAudio, h] using transciber_none_not_transcribing hr h

/-- C8 (witness): transcribing right after mount, before initialization. -/
theorem transcribe_uninitialized_witness :
    (transcribeAudio initialTransState TransResult.err).transcript = notInitializedMsg ∧
    (transcribeAudio initialTransState TransResult.err).isTranscribing = false :=
  transcribe_uninitialized initialTransState TransResult.err TransReachable.base rfl

/-- C9: on every filename matching the anchored pattern, the parser yields
a result whose year string is "20" followed by the first two digits and
whose time string is digits 7-8, a colon, then digits 9-10. -/
theorem parser_year_time (s : List Char) (hs : anchoredPattern s = true) :
    (parseFileName s).map DateInfo.year = some ('2' :: '0' :: List.take 2 s) ∧
    (parseFileName s).map DateInfo.time =
      some (List.take 2 (List.drop 7 s) ++ ':' :: List.take 2 (List.drop 9 s)) := by
  obtain ⟨a, b, c, d, e, f, g, h, i, j, rfl, hdig⟩ := anchoredPattern_shape hs
  constructor
  · simp [parseFileName, findFirstMatch, matchAt, hdig]
  · simp [parseFileName, findFirstMatch, matchAt, hdig]

/-- C9 (witness): the parser's year and time on 240315_1430.mp3. -/
theorem parser_year_time_witness :
    anchoredPattern sampleName = true ∧
    ((parseFileName sampleName).map DateInfo.year =
        some ('2' :: '0' :: List.take 2 sampleName) ∧
      (parseFileName sampleName).map DateInfo.time =
        some (List.take 2 (List.drop 7 sampleName) ++
          ':' :: List.take 2 (List.drop 9 sampleName))) :=
  ⟨by decide, parser_year_time sampleName (by decide)⟩

/-- C10: handleSeek reads only the first element of its array argument; the
missing-element branch is taken exactly when the array is empty, and on a
non-empty array the playback position (element time and currentTime state)
is set to the first element. -/
theorem seek_uses_first_element :
    (∀ (st : PlayerState) (v : List ℚ) (t : ℚ), v.head? = some t →
      handleSeek st v = some { st with audioTime := t, currentTime := t }) ∧
    (∀ st : PlayerState, handleSeek st ([] : List ℚ) = none) := by
  constructor
  · intro st v t h
    cases v with
    | nil => simp at h
    | cons a rest =>
      simp [List.head?] at h
      subst h
      rfl
  · intro st
    rfl

/-- C10 (witness): seeking to 5 seconds from the start state. -/
theorem seek_uses_first_element_witness :
    handleSeek initPlayer [(5 : ℚ)] =
      some { initPlayer with audioTime := 5, currentTime := 5 } :=
  seek_uses_first_element.1 initPlayer [(5 : ℚ)] 5 rfl
